import Mathlib

/-!
Verification of the MiniZinc garbage-collector core (include/minizinc/gc.hh,
include/minizinc/astmap.hh) as a shallow embedding.  The header under src/
declares the collector interface (GC, KeepAlive, WeakRef, ASTNodeWeakMap,
GCMarker) but the implementation file (lib/gc.cpp) is not part of the
sources; where a definition below embeds behaviour that is only declared in
the header, its doc comment starts with `Modelled from the spec:` and the
definition follows the specification text.
-/

namespace MiniZinc

/-- Embedding of the ASTNode bitfield header (gc.hh lines 48-66).
`_gc_mark` is a 1-bit field, `_id` and `_sec_id` are 7-bit fields, the two
flags are 1-bit fields.  Fields the constructor does not assign are
represented as `none` (uninitialized). -/
structure ASTNode where
  _gc_mark : Nat
  _id : Nat
  _sec_id : Option Nat
  _flag_1 : Option Nat
  _flag_2 : Option Nat

/-- Embedding of the constructor `ASTNode(unsigned int id) : _gc_mark(0), _id(id)`
(gc.hh line 66): the 7-bit `_id` field truncates the argument modulo 2^7,
`_gc_mark` is set to 0, `_sec_id`, `_flag_1`, `_flag_2` stay unassigned. -/
def ASTNode.init (id : Nat) : ASTNode :=
  { _gc_mark := 0, _id := id % 2 ^ 7, _sec_id := none, _flag_1 := none, _flag_2 := none }

/-! ## Trail

The trail state: a client-visible store of expression-pointer cells (modelled
as `Nat → Nat`), the undo log of (location, previous value) pairs with the
most recent entry first, and the stack of checkpoints (trail lengths). -/

/-- Modelled from the spec: the Trail owned by the GC (gc.hh lines 190-195
declare `GC::mark`, `GC::trail`, `GC::untrail`; the implementation is not in
the sources).  The store maps locations (`Expression**`) to values
(`Expression*`), both modelled as `Nat`. -/
structure TrailState where
  store : Nat → Nat
  trail : List (Nat × Nat)
  marks : List Nat

/-- Modelled from the spec: `GC::mark()` pushes a checkpoint, the current
trail length. -/
def GC.mark (t : TrailState) : TrailState :=
  { t with marks := t.trail.length :: t.marks }

/-- Modelled from the spec: `GC::trail(loc, prev)` records a (location,
previous value) pair on the undo log. -/
def GC.trail (t : TrailState) (loc prev : Nat) : TrailState :=
  { t with trail := (loc, prev) :: t.trail }

/-- A raw (untrailed) write to a store location. -/
def TrailState.write (t : TrailState) (loc v : Nat) : TrailState :=
  { t with store := Function.update t.store loc v }

/-- A trailed write: record the current value of `loc` on the trail, then
overwrite it, as mutating callers are required to do. -/
def TrailState.trailedWrite (t : TrailState) (loc v : Nat) : TrailState :=
  (GC.trail t loc (t.store loc)).write loc v

/-- A sequence of trailed writes, performed left to right. -/
def TrailState.trailedWrites (t : TrailState) (ws : List (Nat × Nat)) : TrailState :=
  ws.foldl (fun st w => st.trailedWrite w.1 w.2) t

/-- Restore a list of trail entries (most recent first) into a store, in
order: each entry writes its recorded previous value back to its location. -/
def restoreEntries (σ : Nat → Nat) (es : List (Nat × Nat)) : Nat → Nat :=
  es.foldl (fun st p => Function.update st p.1 p.2) σ

/-- Modelled from the spec: `GC::untrail()` pops entries down to the most
recent checkpoint, restoring each recorded location to its previous value in
reverse chronological order, then discards that checkpoint. -/
def GC.untrail (t : TrailState) : TrailState :=
  match t.marks with
  | [] => t
  | m :: ms =>
    let k := t.trail.length - m
    { store := restoreEntries t.store (t.trail.take k)
      trail := t.trail.drop k
      marks := ms }

/-! ## Collector state

Nodes are identified by their heap address, a `Nat`.  A heap object carries
its allocated size and the addresses of the nodes it references (the children
a mark callback recurses into, e.g. an `ASTVec`'s elements). -/

/-- A heap-resident garbage-collected object: its allocated size and its
outgoing node references. -/
structure GCObj where
  size : Nat
  children : List Nat
  deriving DecidableEq

/-- Embedding of `WeakRef` (gc.hh lines 233-250): a nullable referent and the
validity flag `_valid`, cleared only by the sweep. -/
structure WRef where
  e : Option Nat
  valid : Bool
  deriving DecidableEq

/-- Embedding of `WeakRef::operator()` (gc.hh lines 247-248):
`return _valid ? _e : NULL`. -/
def WRef.read (w : WRef) : Option Nat :=
  if w.valid then w.e else none

/-- Modelled from the spec: the thread-local collector state (class GC,
gc.hh lines 140-202; the implementation is not in the sources).  `objs` is
the heap (address to object), `rootRefs` the union of the node addresses
the registered GCMarkers mark, `keepAlives` the strong-handle list (handle
id to referent), `weakRefs` the weak-handle list, `weakMaps` the registered
ASTNodeWeakMaps (map id to entry list), `lockCount` the reentrant lock
counter, `allocMem` the currently allocated memory and `maxMemVal` the
high-water mark returned by `GC::maxMem()`. -/
structure GCState where
  objs : List (Nat × GCObj)
  rootRefs : List Nat
  keepAlives : List (Nat × Option Nat)
  weakRefs : List (Nat × WRef)
  weakMaps : List (Nat × List (Nat × Nat))
  lockCount : Nat
  allocMem : Nat
  maxMemVal : Nat

/-- The addresses of the objects currently on the heap. -/
def GCState.heapDom (s : GCState) : List Nat :=
  s.objs.map Prod.fst

/-- The outgoing references of the object at address `a` (empty if no object
lives at `a`). -/
def GCState.succs (s : GCState) (a : Nat) : List Nat :=
  match s.objs.find? (fun p => p.1 == a) with
  | some p => p.2.children
  | none => []

/-- The seeds of the mark phase: every node marked by a registered GCMarker
root, plus the referent of every live KeepAlive. -/
def GCState.seeds (s : GCState) : List Nat :=
  s.rootRefs ++ s.keepAlives.filterMap Prod.snd

/-- One-step successor set, as a finset. -/
def GCState.succsF (s : GCState) (a : Nat) : Finset Nat :=
  (s.succs a).toFinset

/-- One round of the mark phase: add the successors of every node marked so
far. -/
def GCState.stepClose (s : GCState) (cur : Finset Nat) : Finset Nat :=
  cur ∪ cur.biUnion s.succsF

/-- Iterate the mark round `k` times. -/
def GCState.iterClose (s : GCState) : Nat → Finset Nat → Finset Nat
  | 0, cur => cur
  | k + 1, cur => s.iterClose k (s.stepClose cur)

/-- Every node address the mark phase can ever reach: the seeds together
with every child reference stored in the heap. -/
def GCState.closeBound (s : GCState) : Finset Nat :=
  s.seeds.toFinset ∪ ((s.objs.map fun p => p.2.children).flatten).toFinset

/-- Modelled from the spec: the set of node addresses marked by the mark
phase (recursive marking from every root and strong handle, halting on an
already-set mark bit); computed as the closure of the seed set under the
successor relation. -/
def GCState.markedF (s : GCState) : Finset Nat :=
  s.iterClose (s.closeBound.card + 1) s.seeds.toFinset

/-- A node survives the collection cycle started in state `s` if it is on the
heap and marked. -/
def GCState.survivesB (s : GCState) (a : Nat) : Bool :=
  (s.objs.any fun p => p.1 == a) && decide (a ∈ s.markedF)

/-- The sweep's treatment of one WeakRef: if its referent did not survive,
its `_valid` flag is cleared; the flag is never set by the sweep. -/
def GC.sweepWRef (s : GCState) (w : WRef) : WRef :=
  match w.e with
  | none => w
  | some n => if s.survivesB n then w else { w with valid := false }

/-- The sweep's treatment of one ASTNodeWeakMap: every entry whose key or
value did not survive is purged. -/
def GC.sweepMap (s : GCState) (entries : List (Nat × Nat)) : List (Nat × Nat) :=
  entries.filter fun kv => s.survivesB kv.1 && s.survivesB kv.2

/-- Modelled from the spec: one full mark-sweep cycle.  Unmarked heap objects
are reclaimed; every WeakRef whose referent did not survive is invalidated
(its `_valid` flag cleared, never set); every ASTNodeWeakMap entry whose key
or value did not survive is purged; allocated memory shrinks to the
surviving footprint; the high-water mark is unchanged. -/
def GC.collect (s : GCState) : GCState :=
  let objs2 := s.objs.filter fun p => decide (p.1 ∈ s.markedF)
  { objs := objs2
    rootRefs := s.rootRefs
    keepAlives := s.keepAlives
    weakRefs := s.weakRefs.map fun q => (q.1, GC.sweepWRef s q.2)
    weakMaps := s.weakMaps.map fun q => (q.1, GC.sweepMap s q.2)
    lockCount := s.lockCount
    allocMem := (objs2.map fun p => p.2.size).sum
    maxMemVal := s.maxMemVal }

/-- Modelled from the spec: `GC::trigger()` (gc.hh lines 181-182) is a no-op
while the collector is locked; otherwise it runs one full mark-sweep cycle
synchronously. -/
def GC.trigger (s : GCState) : GCState :=
  if s.lockCount = 0 then GC.collect s else s

/-- Modelled from the spec: `GC::lock()` increments the reentrant lock
count. -/
def GC.lock (s : GCState) : GCState :=
  { s with lockCount := s.lockCount + 1 }

/-- Modelled from the spec: `GC::unlock()` decrements the reentrant lock
count. -/
def GC.unlock (s : GCState) : GCState :=
  { s with lockCount := s.lockCount - 1 }

/-- Modelled from the spec: the raw storage returned by `GC::alloc(size)`
(gc.hh lines 166-167, used by `ASTNode::operator new`): zero-initialized
memory of the requested size. -/
def GC.allocBlock (size : Nat) : List Nat :=
  List.replicate size 0

/-- Modelled from the spec: the state effect of `GC::alloc`: a fresh object
is placed on the heap, the allocated-memory counter grows by its size, and
the high-water mark is raised to the new total if it exceeds the old
maximum. -/
def GC.alloc (s : GCState) (addr : Nat) (o : GCObj) : GCState :=
  if s.objs.any fun p => p.1 == addr then s
  else
    { s with objs := (addr, o) :: s.objs
             allocMem := s.allocMem + o.size
             maxMemVal := max s.maxMemVal (s.allocMem + o.size) }

/-- Embedding of `GC::maxMem()` (gc.hh lines 200-201): the maximum allocated
memory (high-water mark). -/
def GC.maxMem (s : GCState) : Nat :=
  s.maxMemVal

/-! ## Client operations -/

/-- The operations a client can perform on the collector state: locking,
triggering, allocation, root registration, strong-handle assignment,
weak-handle registration/deregistration/assignment, and weak-map
insertion/clearing. -/
inductive GCOp where
  | lock
  | unlock
  | trigger
  | alloc (addr : Nat) (o : GCObj)
  | addRoot (r : Nat)
  | removeRoot (r : Nat)
  | setKeepAlive (i : Nat) (e : Option Nat)
  | addWeakRef (i : Nat) (e : Option Nat)
  | removeWeakRef (i : Nat)
  | setWeakRef (i : Nat) (e : Option Nat)
  | mapInsert (i k v : Nat)
  | mapClear (i : Nat)
  deriving DecidableEq

/-- The state transition of one client operation.  `addWeakRef` and
`setWeakRef` model the WeakRef constructor and assignment operator
(re-registration with a fresh validity flag); `mapInsert` and `mapClear`
model `ASTNodeWeakMap::insert` and `ASTNodeWeakMap::clear`. -/
def GCOp.apply (op : GCOp) (s : GCState) : GCState :=
  match op with
  | .lock => GC.lock s
  | .unlock => GC.unlock s
  | .trigger => GC.trigger s
  | .alloc a o => GC.alloc s a o
  | .addRoot r => { s with rootRefs := r :: s.rootRefs }
  | .removeRoot r => { s with rootRefs := s.rootRefs.erase r }
  | .setKeepAlive i e =>
      { s with keepAlives := s.keepAlives.map fun q => (q.1, if q.1 = i then e else q.2) }
  | .addWeakRef i e => { s with weakRefs := (i, ⟨e, true⟩) :: s.weakRefs }
  | .removeWeakRef i => { s with weakRefs := s.weakRefs.filter fun q => q.1 != i }
  | .setWeakRef i e =>
      { s with weakRefs := s.weakRefs.map fun q => (q.1, if q.1 = i then ⟨e, true⟩ else q.2) }
  | .mapInsert i k v =>
      { s with weakMaps := s.weakMaps.map fun q => (q.1, if q.1 = i then (k, v) :: q.2 else q.2) }
  | .mapClear i =>
      { s with weakMaps := s.weakMaps.map fun q => (q.1, if q.1 = i then [] else q.2) }

/-- Apply a sequence of client operations left to right. -/
def GCState.applyOps (s : GCState) (ops : List GCOp) : GCState :=
  ops.foldl (fun st op => op.apply st) s

/-- Reading the weak handle with id `i`: the result of `WeakRef::operator()`
on that handle, or `none` if no such handle is registered. -/
def GCState.readWeak (s : GCState) (i : Nat) : Option Nat :=
  match s.weakRefs.find? (fun q => q.1 == i) with
  | some q => q.2.read
  | none => none

/-- Modelled from the spec: `ASTNodeWeakMap::find` (declared gc.hh line 270):
look the key up in the map's entry list. -/
def weakMapFind (entries : List (Nat × Nat)) (k : Nat) : Option Nat :=
  match entries.find? (fun p => p.1 == k) with
  | some p => some p.2
  | none => none

/-- `find` on the registered weak map with id `i` in state `s`. -/
def GCState.mapFind (s : GCState) (i k : Nat) : Option Nat :=
  match s.weakMaps.find? (fun q => q.1 == i) with
  | some q => weakMapFind q.2 k
  | none => none

/-! ## Reachability as the specification states it -/

/-- The edge relation of the heap: `a` references `b`. -/
def GCState.edge (s : GCState) (a b : Nat) : Prop :=
  b ∈ s.succs a

/-- Stated from the specification text: a node is transitively reachable
from the root set (the registered GCMarker objects) or from a live
KeepAlive. -/
def GCState.ReachableSpec (s : GCState) (n : Nat) : Prop :=
  ∃ r ∈ s.seeds, Relation.ReflTransGen s.edge r n

/-! ## String-map markers (astmap.hh) -/

/-- Embedding of the generic `ManagedASTStringMap<T>::mark` (astmap.hh lines
38-50): the mark callback calls `it.first.mark()` for every entry, i.e. it
marks exactly the keys.  Keys are node addresses (`ASTString` wraps a heap
chunk); values are of arbitrary type `T`. -/
def ManagedASTStringMap.markNodes {T : Type} (m : List (Nat × T)) : List Nat :=
  m.map Prod.fst

/-- Modelled from the spec: the specializations of `ManagedASTStringMap::mark`
for `Expression*` and `VarDeclI*` values (declared astmap.hh lines 59-62,
implementation not in the sources) additionally mark every stored value. -/
def ManagedASTStringMap.markNodesWithValues (m : List (Nat × Nat)) : List Nat :=
  m.map Prod.fst ++ m.map Prod.snd

/-! ## Mark-phase closure lemmas -/

lemma GCState.succs_subset_children (s : GCState) (a : Nat) :
    ∀ x ∈ s.succs a, x ∈ (s.objs.map fun p => p.2.children).flatten := by
  intro x hx
  unfold GCState.succs at hx
  cases hfind : s.objs.find? (fun p => p.1 == a) with
  | none => rw [hfind] at hx; simp at hx
  | some p =>
    rw [hfind] at hx
    have hp : p ∈ s.objs := List.mem_of_find?_eq_some hfind
    exact List.mem_flatten.mpr ⟨p.2.children, List.mem_map.mpr ⟨p, hp, rfl⟩, hx⟩

lemma GCState.succsF_subset_bound (s : GCState) (a : Nat) :
    s.succsF a ⊆ s.closeBound := by
  intro x hx
  rw [GCState.succsF, List.mem_toFinset] at hx
  simp only [GCState.closeBound, Finset.mem_union, List.mem_toFinset]
  exact Or.inr (s.succs_subset_children a x hx)

lemma GCState.subset_stepClose (s : GCState) (cur : Finset Nat) :
    cur ⊆ s.stepClose cur :=
  Finset.subset_union_left

lemma GCState.stepClose_subset_bound (s : GCState) (cur : Finset Nat)
    (h : cur ⊆ s.closeBound) : s.stepClose cur ⊆ s.closeBound := by
  rw [GCState.stepClose]
  refine Finset.union_subset h ?_
  intro x hx
  rcases Finset.mem_biUnion.mp hx with ⟨c, _, hcx⟩
  exact s.succsF_subset_bound c hcx

lemma GCState.iterClose_subset_bound (s : GCState) :
    ∀ (k : Nat) (cur : Finset Nat), cur ⊆ s.closeBound →
      s.iterClose k cur ⊆ s.closeBound := by
  intro k
  induction k with
  | zero => intro cur h; exact h
  | succ k ih =>
    intro cur h
    exact ih _ (s.stepClose_subset_bound cur h)

lemma GCState.subset_iterClose (s : GCState) :
    ∀ (k : Nat) (cur : Finset Nat), cur ⊆ s.iterClose k cur := by
  intro k
  induction k with
  | zero => intro cur; exact Finset.Subset.refl cur
  | succ k ih =>
    intro cur
    exact (s.subset_stepClose cur).trans (ih (s.stepClose cur))

lemma GCState.iterClose_of_fixed (s : GCState) (cur : Finset Nat)
    (h : s.stepClose cur = cur) : ∀ k, s.iterClose k cur = cur := by
  intro k
  induction k with
  | zero => rfl
  | succ k ih =>
    show s.iterClose k (s.stepClose cur) = cur
    rw [h, ih]

lemma GCState.iterClose_dichotomy (s : GCState) :
    ∀ (k : Nat) (cur : Finset Nat),
      s.stepClose (s.iterClose k cur) = s.iterClose k cur ∨
        cur.card + k ≤ (s.iterClose k cur).card := by
  intro k
  induction k with
  | zero => intro cur; exact Or.inr (by simp [GCState.iterClose])
  | succ k ih =>
    intro cur
    show s.stepClose (s.iterClose k (s.stepClose cur)) = s.iterClose k (s.stepClose cur) ∨
      cur.card + (k + 1) ≤ (s.iterClose k (s.stepClose cur)).card
    by_cases h : s.stepClose cur = cur
    · have hfix := s.iterClose_of_fixed cur h k
      rw [h, hfix]
      exact Or.inl h
    · have hss : cur ⊂ s.stepClose cur :=
        HasSubset.Subset.ssubset_of_ne (s.subset_stepClose cur) (Ne.symm h)
      have hcard : cur.card < (s.stepClose cur).card := Finset.card_lt_card hss
      rcases ih (s.stepClose cur) with h2 | h2
      · exact Or.inl h2
      · exact Or.inr (by omega)

lemma GCState.stepClose_markedF (s : GCState) :
    s.stepClose s.markedF = s.markedF := by
  rcases s.iterClose_dichotomy (s.closeBound.card + 1) s.seeds.toFinset with h | h
  · exact h
  · exfalso
    have hsub : s.seeds.toFinset ⊆ s.closeBound := by
      intro x hx
      rw [GCState.closeBound, Finset.mem_union]
      exact Or.inl hx
    have hb := s.iterClose_subset_bound (s.closeBound.card + 1) s.seeds.toFinset hsub
    have hc := Finset.card_le_card hb
    omega

lemma GCState.seeds_subset_markedF (s : GCState) :
    ∀ r ∈ s.seeds, r ∈ s.markedF := by
  intro r hr
  exact s.subset_iterClose _ _ (List.mem_toFinset.mpr hr)

lemma GCState.markedF_closed (s : GCState) {a b : Nat}
    (ha : a ∈ s.markedF) (hab : b ∈ s.succs a) : b ∈ s.markedF := by
  have : b ∈ s.stepClose s.markedF := by
    rw [GCState.stepClose, Finset.mem_union]
    exact Or.inr (Finset.mem_biUnion.mpr ⟨a, ha, List.mem_toFinset.mpr hab⟩)
  rwa [s.stepClose_markedF] at this

lemma GCState.marked_sound_aux (s : GCState) :
    ∀ (k : Nat) (cur : Finset Nat), (∀ x ∈ cur, s.ReachableSpec x) →
      ∀ x ∈ s.iterClose k cur, s.ReachableSpec x := by
  intro k
  induction k with
  | zero => intro cur h x hx; exact h x hx
  | succ k ih =>
    intro cur h x hx
    refine ih (s.stepClose cur) ?_ x hx
    intro y hy
    rw [GCState.stepClose, Finset.mem_union] at hy
    rcases hy with hy | hy
    · exact h y hy
    · rcases Finset.mem_biUnion.mp hy with ⟨c, hc, hcy⟩
      rcases h c hc with ⟨r, hr, hrc⟩
      exact ⟨r, hr, hrc.tail (List.mem_toFinset.mp hcy)⟩

lemma GCState.marked_sound (s : GCState) {n : Nat} (h : n ∈ s.markedF) :
    s.ReachableSpec n := by
  refine s.marked_sound_aux _ _ ?_ n h
  intro x hx
  exact ⟨x, List.mem_toFinset.mp hx, Relation.ReflTransGen.refl⟩

lemma GCState.marked_complete (s : GCState) {n : Nat} (h : s.ReachableSpec n) :
    n ∈ s.markedF := by
  rcases h with ⟨r, hr, hrn⟩
  induction hrn with
  | refl => exact s.seeds_subset_markedF r hr
  | tail _ hbc ih => exact s.markedF_closed ih hbc

lemma GCState.marked_iff (s : GCState) (n : Nat) :
    n ∈ s.markedF ↔ s.ReachableSpec n :=
  ⟨s.marked_sound, s.marked_complete⟩

lemma GCState.heapDom_collect (s : GCState) (n : Nat) :
    n ∈ (GC.collect s).heapDom ↔ n ∈ s.heapDom ∧ n ∈ s.markedF := by
  simp only [GC.collect, GCState.heapDom, List.mem_map, List.mem_filter,
    decide_eq_true_eq]
  constructor
  · rintro ⟨p, ⟨hp, hm⟩, rfl⟩
    exact ⟨⟨p, hp, rfl⟩, hm⟩
  · rintro ⟨⟨p, hp, rfl⟩, hm⟩
    exact ⟨p, ⟨hp, hm⟩, rfl⟩

/-! ## Trail lemmas -/

lemma restoreEntries_append (σ : Nat → Nat) (es fs : List (Nat × Nat)) :
    restoreEntries σ (es ++ fs) = restoreEntries (restoreEntries σ es) fs := by
  simp [restoreEntries, List.foldl_append]

lemma trailedWrites_spec :
    ∀ (ws : List (Nat × Nat)) (t : TrailState), (ws.map Prod.fst).Nodup →
      (t.trailedWrites ws).marks = t.marks ∧
      ∃ E : List (Nat × Nat),
        (t.trailedWrites ws).trail = E ++ t.trail ∧ E.length = ws.length ∧
        ∀ σ : Nat → Nat,
          (∀ l ∈ ws.map Prod.fst, restoreEntries σ E l = t.store l) ∧
          (∀ l, l ∉ ws.map Prod.fst → restoreEntries σ E l = σ l) := by
  intro ws
  induction ws with
  | nil =>
    intro t _
    refine ⟨rfl, [], rfl, rfl, fun σ => ⟨by simp, fun l _ => rfl⟩⟩
  | cons w ws ih =>
    intro t hnd
    rw [List.map_cons, List.nodup_cons] at hnd
    obtain ⟨hw, hnd⟩ := hnd
    obtain ⟨hmarks, E2, htrail, hlen, hprop⟩ := ih (t.trailedWrite w.1 w.2) hnd
    have hstep : t.trailedWrites (w :: ws) =
        (t.trailedWrite w.1 w.2).trailedWrites ws := rfl
    refine ⟨hstep ▸ hmarks, E2 ++ [(w.1, t.store w.1)], ?_, by simp [hlen], ?_⟩
    · rw [hstep, htrail]
      show E2 ++ (t.trailedWrite w.1 w.2).trail = (E2 ++ [(w.1, t.store w.1)]) ++ t.trail
      simp [TrailState.trailedWrite, TrailState.write, GC.trail]
    · intro σ
      rw [restoreEntries_append]
      have hupd : restoreEntries (restoreEntries σ E2) [(w.1, t.store w.1)] =
          Function.update (restoreEntries σ E2) w.1 (t.store w.1) := rfl
      rw [hupd]
      obtain ⟨hon, hoff⟩ := hprop σ
      constructor
      · intro l hl
        rw [List.map_cons, List.mem_cons] at hl
        rcases hl with rfl | hl
        · exact Function.update_same _ _ _
        · have hne : l ≠ w.1 := fun he => hw (he ▸ hl)
          rw [Function.update_noteq hne]
          rw [hon l hl]
          show Function.update t.store w.1 w.2 l = t.store l
          rw [Function.update_noteq hne]
      · intro l hl
        rw [List.map_cons, List.mem_cons] at hl
        push_neg at hl
        obtain ⟨hne, hl⟩ := hl
        rw [Function.update_noteq hne]
        exact hoff l hl

lemma GC.untrail_eq (t1 : TrailState) (E l : List (Nat × Nat)) (ms : List Nat)
    (ht : t1.trail = E ++ l) (hm : t1.marks = l.length :: ms) :
    GC.untrail t1 = ⟨restoreEntries t1.store E, l, ms⟩ := by
  unfold GC.untrail
  rw [hm, ht]
  have hk : (E ++ l).length - l.length = E.length := by simp
  simp only [hk, List.take_left, List.drop_left]

/-! ## Association-list helper lemmas -/

lemma find?_key_map {β γ : Type} (l : List (Nat × β)) (g : Nat × β → γ) (i : Nat) :
    ((l.map fun q => (q.1, g q)).find? fun r => r.1 == i) =
      (l.find? fun r => r.1 == i).map fun q => (q.1, g q) := by
  induction l with
  | nil => rfl
  | cons a l ih =>
    cases h : (a.1 == i) with
    | true => simp [List.find?_cons, h]
    | false => simp [List.find?_cons, h, ih]

lemma find?_filter_ne {β : Type} (l : List (Nat × β)) (i j : Nat) (hne : j ≠ i) :
    ((l.filter fun q => q.1 != j).find? fun r => r.1 == i) =
      l.find? fun r => r.1 == i := by
  induction l with
  | nil => rfl
  | cons a l ih =>
    cases h : (a.1 == i) with
    | true =>
      have hai : a.1 = i := eq_of_beq h
      have hkeep : (a.1 != j) = true := by
        simp only [bne, hai, Bool.not_eq_true']
        exact beq_false_of_ne fun hij => hne hij.symm
      simp [List.filter_cons, hkeep, List.find?_cons, h]
    | false =>
      cases hk : (a.1 != j) with
      | true => simp [List.filter_cons, hk, List.find?_cons, h, ih]
      | false => simp [List.filter_cons, hk, ih, List.find?_cons, h]

lemma keyed_eq_of_nodup {β : Type} :
    ∀ (l : List (Nat × β)), (l.map Prod.fst).Nodup →
      ∀ {k : Nat} {a b : β}, (k, a) ∈ l → (k, b) ∈ l → a = b := by
  intro l
  induction l with
  | nil => intro _ k a b ha _; simp at ha
  | cons p l ih =>
    intro hnd k a b ha hb
    rw [List.map_cons, List.nodup_cons] at hnd
    obtain ⟨hp, hnd⟩ := hnd
    have hkey : ∀ c : β, (k, c) ∈ l → k ∈ l.map Prod.fst :=
      fun c hc => List.mem_map.mpr ⟨(k, c), hc, rfl⟩
    rcases List.mem_cons.mp ha with he | ha2
    · rcases List.mem_cons.mp hb with he2 | hb2
      · rw [← he] at he2
        exact (congrArg Prod.snd he2).symm
      · exfalso
        rw [← he] at hp
        exact hp (hkey b hb2)
    · rcases List.mem_cons.mp hb with he2 | hb2
      · exfalso
        rw [← he2] at hp
        exact hp (hkey a ha2)
      · exact ih hnd ha2 hb2

/-! ## Sweep lemmas -/

lemma GCState.survivesB_false_of_unreachable (s : GCState) {n : Nat}
    (h : ¬ s.ReachableSpec n) : s.survivesB n = false := by
  have hm : n ∉ s.markedF := fun hmem => h (s.marked_sound hmem)
  simp [GCState.survivesB, hm]

lemma GC.sweepWRef_read_none (s : GCState) (w : WRef) {n : Nat}
    (he : w.e = some n) (hdead : s.survivesB n = false) :
    (GC.sweepWRef s w).read = none := by
  simp [GC.sweepWRef, he, hdead, WRef.read]

lemma GC.sweepWRef_read_none_preserved (s : GCState) (w : WRef)
    (h : w.read = none) : (GC.sweepWRef s w).read = none := by
  cases hwe : w.e with
  | none => simpa [GC.sweepWRef, hwe] using h
  | some m =>
    cases hs : s.survivesB m with
    | true => simpa [GC.sweepWRef, hwe, hs] using h
    | false => simp [GC.sweepWRef, hwe, hs, WRef.read]

lemma GC.collect_weakRefs (s : GCState) :
    (GC.collect s).weakRefs = s.weakRefs.map fun q => (q.1, GC.sweepWRef s q.2) := rfl

lemma GC.collect_weakMaps (s : GCState) :
    (GC.collect s).weakMaps = s.weakMaps.map fun q => (q.1, GC.sweepMap s q.2) := rfl

lemma GC.collect_readWeak_none (s : GCState) (i n : Nat) (q : Nat × WRef)
    (hfind : s.weakRefs.find? (fun r => r.1 == i) = some q)
    (he : q.2.e = some n)
    (hdead : s.survivesB n = false) :
    (GC.collect s).readWeak i = none := by
  unfold GCState.readWeak
  rw [GC.collect_weakRefs, find?_key_map, hfind]
  exact GC.sweepWRef_read_none s q.2 he hdead

lemma GC.collect_readWeak_none_preserved (s : GCState) (i : Nat)
    (h : s.readWeak i = none) : (GC.collect s).readWeak i = none := by
  unfold GCState.readWeak at h ⊢
  rw [GC.collect_weakRefs, find?_key_map]
  cases hfind : s.weakRefs.find? (fun r => r.1 == i) with
  | none => rfl
  | some q =>
    rw [hfind] at h
    exact GC.sweepWRef_read_none_preserved s q.2 h

lemma weakMapFind_none_of_no_key (entries : List (Nat × Nat)) (k : Nat)
    (h : ∀ p ∈ entries, p.1 ≠ k) : weakMapFind entries k = none := by
  unfold weakMapFind
  have hf : entries.find? (fun p => p.1 == k) = none := by
    rw [List.find?_eq_none]
    intro p hp
    simp only [Bool.not_eq_true]
    exact beq_false_of_ne (h p hp)
  rw [hf]

lemma weakMapFind_none_filter (entries : List (Nat × Nat)) (f : Nat × Nat → Bool) (k : Nat)
    (h : weakMapFind entries k = none) :
    weakMapFind (entries.filter f) k = none := by
  unfold weakMapFind at h ⊢
  cases hfind : entries.find? (fun p => p.1 == k) with
  | some p => rw [hfind] at h; simp at h
  | none =>
    have hf2 : (entries.filter f).find? (fun p => p.1 == k) = none := by
      rw [List.find?_eq_none]
      intro p hp
      exact List.find?_eq_none.mp hfind p (List.mem_of_mem_filter hp)
    rw [hf2]

lemma GC.collect_mapFind_none (s : GCState) (i k v : Nat) (q : Nat × List (Nat × Nat))
    (hfind : s.weakMaps.find? (fun r => r.1 == i) = some q)
    (hnd : (q.2.map Prod.fst).Nodup)
    (hmem : (k, v) ∈ q.2)
    (hdead : s.survivesB k = false ∨ s.survivesB v = false) :
    (GC.collect s).mapFind i k = none := by
  unfold GCState.mapFind
  rw [GC.collect_weakMaps, find?_key_map, hfind]
  show weakMapFind (GC.sweepMap s q.2) k = none
  refine weakMapFind_none_of_no_key _ k ?_
  rintro ⟨pk, pv⟩ hp hpk
  simp only at hpk
  subst hpk
  simp only [GC.sweepMap] at hp
  have hmemp : (pk, pv) ∈ q.2 := (List.mem_filter.mp hp).1
  have hfil : (s.survivesB pk && s.survivesB pv) = true := (List.mem_filter.mp hp).2
  have hpvv : pv = v := keyed_eq_of_nodup q.2 hnd hmemp hmem
  subst hpvv
  simp only [Bool.and_eq_true] at hfil
  rcases hdead with hd | hd
  · rw [hfil.1] at hd; exact Bool.noConfusion hd
  · rw [hfil.2] at hd; exact Bool.noConfusion hd

lemma GC.collect_mapFind_none_preserved (s : GCState) (i k : Nat)
    (h : s.mapFind i k = none) : (GC.collect s).mapFind i k = none := by
  unfold GCState.mapFind at h ⊢
  rw [GC.collect_weakMaps, find?_key_map]
  cases hfind : s.weakMaps.find? (fun r => r.1 == i) with
  | none => rfl
  | some q =>
    rw [hfind] at h
    exact weakMapFind_none_filter q.2 _ k h

/-! ## Per-operation preservation lemmas -/

/-- An operation touches the weak handle `i` if it registers, deregisters or
reassigns that handle. -/
def GCOp.touchesWeakRef (op : GCOp) (i : Nat) : Prop :=
  (∃ e, op = GCOp.addWeakRef i e) ∨ (∃ e, op = GCOp.setWeakRef i e) ∨
    op = GCOp.removeWeakRef i

lemma GCState.applyOps_cons (s : GCState) (op : GCOp) (ops : List GCOp) :
    s.applyOps (op :: ops) = (op.apply s).applyOps ops := rfl

lemma GCState.applyOps_nil (s : GCState) : s.applyOps [] = s := rfl

lemma readWeak_none_apply (op : GCOp) (s : GCState) (i : Nat)
    (hop : ¬ op.touchesWeakRef i)
    (h : s.readWeak i = none) : (op.apply s).readWeak i = none := by
  cases op with
  | lock => exact h
  | unlock => exact h
  | trigger =>
    show (GC.trigger s).readWeak i = none
    unfold GC.trigger
    split
    · exact GC.collect_readWeak_none_preserved s i h
    · exact h
  | alloc a o =>
    show (GC.alloc s a o).readWeak i = none
    unfold GC.alloc
    split
    · exact h
    · exact h
  | addRoot r => exact h
  | removeRoot r => exact h
  | setKeepAlive j e => exact h
  | addWeakRef j e =>
    have hne : (j == i) = false := by
      refine beq_false_of_ne fun hji => ?_
      subst hji
      exact hop (Or.inl ⟨e, rfl⟩)
    unfold GCState.readWeak at h ⊢
    simp only [GCOp.apply, List.find?_cons, hne]
    exact h
  | removeWeakRef j =>
    have hne : j ≠ i := by
      intro hji
      subst hji
      exact hop (Or.inr (Or.inr rfl))
    unfold GCState.readWeak at h ⊢
    simp only [GCOp.apply]
    rw [find?_filter_ne s.weakRefs i j hne]
    exact h
  | setWeakRef j e =>
    have hne : i ≠ j := by
      intro hji
      subst hji
      exact hop (Or.inr (Or.inl ⟨e, rfl⟩))
    unfold GCState.readWeak at h ⊢
    simp only [GCOp.apply]
    rw [find?_key_map]
    cases hfind : s.weakRefs.find? (fun r => r.1 == i) with
    | none => rfl
    | some q =>
      rw [hfind] at h
      have hqi : q.1 = i := by
        have hp := List.find?_some hfind
        simpa using hp
      simp only [Option.map_some']
      show (if q.1 = j then (⟨e, true⟩ : WRef) else q.2).read = none
      rw [if_neg (hqi ▸ hne)]
      exact h
  | mapInsert j k v => exact h
  | mapClear j => exact h

lemma readWeak_none_applyOps :
    ∀ (ops : List GCOp) (s : GCState), (∀ op ∈ ops, ¬ op.touchesWeakRef i) →
      s.readWeak i = none → (s.applyOps ops).readWeak i = none := by
  intro ops
  induction ops with
  | nil => intro s _ h; exact h
  | cons op ops ih =>
    intro s hops h
    rw [GCState.applyOps_cons]
    exact ih (op.apply s)
      (fun o ho => hops o (List.mem_cons_of_mem _ ho))
      (readWeak_none_apply op s i (hops op (List.mem_cons_self op ops)) h)

lemma mapFind_none_apply (op : GCOp) (s : GCState) (i k : Nat)
    (hop : ∀ v2, op ≠ GCOp.mapInsert i k v2)
    (h : s.mapFind i k = none) : (op.apply s).mapFind i k = none := by
  cases op with
  | lock => exact h
  | unlock => exact h
  | trigger =>
    show (GC.trigger s).mapFind i k = none
    unfold GC.trigger
    split
    · exact GC.collect_mapFind_none_preserved s i k h
    · exact h
  | alloc a o =>
    show (GC.alloc s a o).mapFind i k = none
    unfold GC.alloc
    split
    · exact h
    · exact h
  | addRoot r => exact h
  | removeRoot r => exact h
  | setKeepAlive j e => exact h
  | addWeakRef j e => exact h
  | removeWeakRef j => exact h
  | setWeakRef j e => exact h
  | mapInsert j k2 v2 =>
    unfold GCState.mapFind at h ⊢
    simp only [GCOp.apply]
    rw [find?_key_map]
    cases hfind : s.weakMaps.find? (fun r => r.1 == i) with
    | none => rfl
    | some q =>
      rw [hfind] at h
      have hqi : q.1 = i := by
        have hp := List.find?_some hfind
        simpa using hp
      simp only [Option.map_some']
      show weakMapFind (if q.1 = j then (k2, v2) :: q.2 else q.2) k = none
      by_cases hqj : q.1 = j
      · rw [if_pos hqj]
        have hk2 : (k2 == k) = false := by
          refine beq_false_of_ne fun hk2k => ?_
          subst hk2k
          exact hop v2 (by rw [← hqi, hqj])
        unfold weakMapFind at h ⊢
        simp only [List.find?_cons, hk2]
        exact h
      · rw [if_neg hqj]
        exact h
  | mapClear j =>
    unfold GCState.mapFind at h ⊢
    simp only [GCOp.apply]
    rw [find?_key_map]
    cases hfind : s.weakMaps.find? (fun r => r.1 == i) with
    | none => rfl
    | some q =>
      rw [hfind] at h
      simp only [Option.map_some']
      show weakMapFind (if q.1 = j then [] else q.2) k = none
      by_cases hqj : q.1 = j
      · rw [if_pos hqj]; rfl
      · rw [if_neg hqj]; exact h

lemma mapFind_none_applyOps :
    ∀ (ops : List GCOp) (s : GCState), (∀ op ∈ ops, ∀ v2, op ≠ GCOp.mapInsert i k v2) →
      s.mapFind i k = none → (s.applyOps ops).mapFind i k = none := by
  intro ops
  induction ops with
  | nil => intro s _ h; exact h
  | cons op ops ih =>
    intro s hops h
    rw [GCState.applyOps_cons]
    exact ih (op.apply s)
      (fun o ho => hops o (List.mem_cons_of_mem _ ho))
      (mapFind_none_apply op s i k (hops op (List.mem_cons_self op ops)) h)

/-! ## Lock count and high-water mark lemmas -/

/-- The number of `lock` calls in an operation sequence. -/
def countLocks : List GCOp → Nat
  | [] => 0
  | GCOp.lock :: ops => countLocks ops + 1
  | _ :: ops => countLocks ops

/-- The number of `unlock` calls in an operation sequence. -/
def countUnlocks : List GCOp → Nat
  | [] => 0
  | GCOp.unlock :: ops => countUnlocks ops + 1
  | _ :: ops => countUnlocks ops

lemma applyOps_lockCount :
    ∀ (ops : List GCOp) (s : GCState), (∀ op ∈ ops, op = GCOp.lock ∨ op = GCOp.unlock) →
      s.lockCount + countLocks ops ≤ (s.applyOps ops).lockCount + countUnlocks ops := by
  intro ops
  induction ops with
  | nil => intro s _; exact le_rfl
  | cons op ops ih =>
    intro s hops
    rcases hops op (List.mem_cons_self op ops) with rfl | rfl
    · have hih := ih (GC.lock s) fun o ho => hops o (List.mem_cons_of_mem _ ho)
      have ha : s.applyOps (GCOp.lock :: ops) = (GC.lock s).applyOps ops := rfl
      have hl : (GC.lock s).lockCount = s.lockCount + 1 := rfl
      have hc1 : countLocks (GCOp.lock :: ops) = countLocks ops + 1 := rfl
      have hc2 : countUnlocks (GCOp.lock :: ops) = countUnlocks ops := rfl
      rw [ha, hc1, hc2]
      omega
    · have hih := ih (GC.unlock s) fun o ho => hops o (List.mem_cons_of_mem _ ho)
      have ha : s.applyOps (GCOp.unlock :: ops) = (GC.unlock s).applyOps ops := rfl
      have hl : (GC.unlock s).lockCount = s.lockCount - 1 := rfl
      have hc1 : countLocks (GCOp.unlock :: ops) = countLocks ops := rfl
      have hc2 : countUnlocks (GCOp.unlock :: ops) = countUnlocks ops + 1 := rfl
      rw [ha, hc1, hc2]
      omega

lemma GCOp.apply_maxMem_mono (op : GCOp) (s : GCState) :
    s.maxMemVal ≤ (op.apply s).maxMemVal := by
  cases op with
  | trigger =>
    show s.maxMemVal ≤ (GC.trigger s).maxMemVal
    unfold GC.trigger
    split
    · exact le_rfl
    · exact le_rfl
  | alloc a o =>
    show s.maxMemVal ≤ (GC.alloc s a o).maxMemVal
    unfold GC.alloc
    split
    · exact le_rfl
    · exact le_max_left _ _
  | lock => exact le_rfl
  | unlock => exact le_rfl
  | addRoot r => exact le_rfl
  | removeRoot r => exact le_rfl
  | setKeepAlive j e => exact le_rfl
  | addWeakRef j e => exact le_rfl
  | removeWeakRef j => exact le_rfl
  | setWeakRef j e => exact le_rfl
  | mapInsert j k v => exact le_rfl
  | mapClear j => exact le_rfl

lemma applyOps_maxMem_mono :
    ∀ (ops : List GCOp) (s : GCState), s.maxMemVal ≤ (s.applyOps ops).maxMemVal := by
  intro ops
  induction ops with
  | nil => intro s; exact le_rfl
  | cons op ops ih =>
    intro s
    exact (op.apply_maxMem_mono s).trans (ih (op.apply s))

/-! ## Example states used to instantiate the theorems -/

/-- A small example collector state: heap nodes 1 → 2 and an unreferenced
node 3, node 1 rooted, a weak handle 7 on node 3, a weak map 5 with the
entry (3, 2). -/
def exState : GCState :=
  { objs := [(1, ⟨8, [2]⟩), (2, ⟨8, []⟩), (3, ⟨8, []⟩)]
    rootRefs := [1]
    keepAlives := []
    weakRefs := [(7, ⟨some 3, true⟩)]
    weakMaps := [(5, [(3, 2)])]
    lockCount := 0
    allocMem := 24
    maxMemVal := 24 }

/-- A second example state: two heap nodes kept alive only through the
marking of a managed string map whose entry is (2, 3). -/
def exState2 : GCState :=
  { objs := [(2, ⟨8, []⟩), (3, ⟨8, []⟩)]
    rootRefs := [2, 3]
    keepAlives := []
    weakRefs := []
    weakMaps := []
    lockCount := 0
    allocMem := 16
    maxMemVal := 16 }

/-- An example trail state with an all-zero store and no open checkpoint. -/
def exTrail : TrailState :=
  ⟨fun _ => 0, [], []⟩

/-! ## Claim theorems -/

/-- C1: when `GC::trigger()` begins a collection cycle (the lock count is
zero), a node on the heap survives the cycle iff it is transitively
reachable from the root set (the registered GCMarker objects) or from a
live KeepAlive at that moment; a node reachable from neither is reclaimed
by that cycle. -/
theorem trigger_reachability (s : GCState) (hlock : s.lockCount = 0) (n : Nat)
    (hn : n ∈ s.heapDom) :
    n ∈ (GC.trigger s).heapDom ↔ s.ReachableSpec n := by
  unfold GC.trigger
  rw [if_pos hlock, GCState.heapDom_collect]
  constructor
  · rintro ⟨_, hm⟩
    exact s.marked_sound hm
  · intro hr
    exact ⟨hn, s.marked_complete hr⟩

theorem trigger_reachability_witness :
    2 ∈ (GC.trigger exState).heapDom ↔ exState.ReachableSpec 2 :=
  trigger_reachability exState rfl 2 (by decide)

/-- C2: if a node `n` referenced by the WeakRef with id `i` is reclaimed by
a collection cycle (it is on the heap but unreachable when an unlocked
`trigger()` runs), then reading the handle returns empty immediately after
that cycle, and on every later read across operations that do not reassign
(or re-register/destroy) that handle; it never yields a dangling
reference. -/
theorem weakref_invalidation (s : GCState) (i n : Nat) (q : Nat × WRef)
    (hlock : s.lockCount = 0)
    (hfind : s.weakRefs.find? (fun r => r.1 == i) = some q)
    (he : q.2.e = some n)
    (hheap : n ∈ s.heapDom)
    (hunreach : ¬ s.ReachableSpec n)
    (ops : List GCOp) (hops : ∀ op ∈ ops, ¬ op.touchesWeakRef i) :
    (GC.trigger s).readWeak i = none ∧
    ((GC.trigger s).applyOps ops).readWeak i = none := by
  have hdead : s.survivesB n = false := s.survivesB_false_of_unreachable hunreach
  have h1 : (GC.trigger s).readWeak i = none := by
    unfold GC.trigger
    rw [if_pos hlock]
    exact GC.collect_readWeak_none s i n q hfind he hdead
  exact ⟨h1, readWeak_none_applyOps ops (GC.trigger s) hops h1⟩

theorem weakref_invalidation_witness :
    (GC.trigger exState).readWeak 7 = none ∧
    ((GC.trigger exState).applyOps [GCOp.trigger, GCOp.lock]).readWeak 7 = none :=
  weakref_invalidation exState 7 3 (7, ⟨some 3, true⟩) rfl (by decide) rfl (by decide)
    (fun hr => absurd (exState.marked_complete hr) (by decide))
    [GCOp.trigger, GCOp.lock]
    (by
      intro op hop
      rcases List.mem_cons.mp hop with rfl | hop2
      · rintro (⟨e, h⟩ | ⟨e, h⟩ | h) <;> exact GCOp.noConfusion h
      · rcases List.mem_cons.mp hop2 with rfl | hop3
        · rintro (⟨e, h⟩ | ⟨e, h⟩ | h) <;> exact GCOp.noConfusion h
        · exact absurd hop3 (List.not_mem_nil _))

/-- C3: for trailed writes to pairwise distinct locations performed between
`mark()` and `untrail()`, after `untrail()` each written location holds
exactly its pre-`mark()` value, every location not trailed in the interval
is left unchanged by `untrail()`, and the trail and checkpoint stack return
to their pre-`mark()` state. -/
theorem trail_roundtrip (t : TrailState) (ws : List (Nat × Nat))
    (hnd : (ws.map Prod.fst).Nodup) :
    (∀ w ∈ ws, (GC.untrail ((GC.mark t).trailedWrites ws)).store w.1 = t.store w.1) ∧
    (∀ loc, loc ∉ ws.map Prod.fst →
      (GC.untrail ((GC.mark t).trailedWrites ws)).store loc =
        ((GC.mark t).trailedWrites ws).store loc) ∧
    (GC.untrail ((GC.mark t).trailedWrites ws)).trail = t.trail ∧
    (GC.untrail ((GC.mark t).trailedWrites ws)).marks = t.marks := by
  obtain ⟨hmarks, E, htrail, hlen, hprop⟩ := trailedWrites_spec ws (GC.mark t) hnd
  have hmm : ((GC.mark t).trailedWrites ws).marks = t.trail.length :: t.marks := hmarks
  have htt : ((GC.mark t).trailedWrites ws).trail = E ++ t.trail := htrail
  have hu := GC.untrail_eq ((GC.mark t).trailedWrites ws) E t.trail t.marks htt hmm
  rw [hu]
  obtain ⟨hon, hoff⟩ := hprop ((GC.mark t).trailedWrites ws).store
  refine ⟨?_, ?_, rfl, rfl⟩
  · intro w hw
    exact hon w.1 (List.mem_map.mpr ⟨w, hw, rfl⟩)
  · intro loc hloc
    exact hoff loc hloc

theorem trail_roundtrip_witness :
    (GC.untrail ((GC.mark exTrail).trailedWrites [(10, 1), (11, 2)])).store 10 =
      exTrail.store 10 :=
  (trail_roundtrip exTrail [(10, 1), (11, 2)] (by decide)).1 (10, 1) (by decide)

/-- C4: checkpoints nest LIFO: after `mark(); mark();` and trailed writes in
each interval, the first `untrail()` restores exactly the locations written
since the second `mark()` to their values at that mark (leaving untrailed
locations unchanged) and discards only the inner checkpoint; a subsequent
`untrail()` then restores the writes trailed since the first `mark()`. -/
theorem trail_nesting (t : TrailState) (ws1 ws2 : List (Nat × Nat))
    (h1 : (ws1.map Prod.fst).Nodup) (h2 : (ws2.map Prod.fst).Nodup) :
    (∀ w ∈ ws2,
      (GC.untrail ((GC.mark ((GC.mark t).trailedWrites ws1)).trailedWrites ws2)).store w.1 =
        ((GC.mark t).trailedWrites ws1).store w.1) ∧
    (∀ loc, loc ∉ ws2.map Prod.fst →
      (GC.untrail ((GC.mark ((GC.mark t).trailedWrites ws1)).trailedWrites ws2)).store loc =
        ((GC.mark ((GC.mark t).trailedWrites ws1)).trailedWrites ws2).store loc) ∧
    (GC.untrail ((GC.mark ((GC.mark t).trailedWrites ws1)).trailedWrites ws2)).marks =
      ((GC.mark t).trailedWrites ws1).marks ∧
    (∀ w ∈ ws1,
      (GC.untrail (GC.untrail
        ((GC.mark ((GC.mark t).trailedWrites ws1)).trailedWrites ws2))).store w.1 =
        t.store w.1) ∧
    (GC.untrail (GC.untrail
      ((GC.mark ((GC.mark t).trailedWrites ws1)).trailedWrites ws2))).trail = t.trail ∧
    (GC.untrail (GC.untrail
      ((GC.mark ((GC.mark t).trailedWrites ws1)).trailedWrites ws2))).marks = t.marks := by
  obtain ⟨hm1, E1, ht1, hl1, hp1⟩ := trailedWrites_spec ws1 (GC.mark t) h1
  obtain ⟨hm2, E2, ht2, hl2, hp2⟩ :=
    trailedWrites_spec ws2 (GC.mark ((GC.mark t).trailedWrites ws1)) h2
  have hu1 := GC.untrail_eq ((GC.mark ((GC.mark t).trailedWrites ws1)).trailedWrites ws2)
    E2 ((GC.mark t).trailedWrites ws1).trail ((GC.mark t).trailedWrites ws1).marks ht2 hm2
  rw [hu1]
  obtain ⟨hon2, hoff2⟩ :=
    hp2 ((GC.mark ((GC.mark t).trailedWrites ws1)).trailedWrites ws2).store
  have hu2 := GC.untrail_eq
    (⟨restoreEntries ((GC.mark ((GC.mark t).trailedWrites ws1)).trailedWrites ws2).store E2,
      ((GC.mark t).trailedWrites ws1).trail, ((GC.mark t).trailedWrites ws1).marks⟩ :
      TrailState)
    E1 t.trail t.marks ht1 hm1
  rw [hu2]
  obtain ⟨hon1, hoff1⟩ := hp1
    (restoreEntries ((GC.mark ((GC.mark t).trailedWrites ws1)).trailedWrites ws2).store E2)
  refine ⟨?_, ?_, rfl, ?_, rfl, rfl⟩
  · intro w hw
    exact hon2 w.1 (List.mem_map.mpr ⟨w, hw, rfl⟩)
  · intro loc hloc
    exact hoff2 loc hloc
  · intro w hw
    exact hon1 w.1 (List.mem_map.mpr ⟨w, hw, rfl⟩)

theorem trail_nesting_witness :
    (GC.untrail (GC.untrail
      ((GC.mark ((GC.mark exTrail).trailedWrites [(10, 1)])).trailedWrites
        [(10, 5), (12, 6)]))).store 10 = exTrail.store 10 :=
  (trail_nesting exTrail [(10, 1)] [(10, 5), (12, 6)] (by decide) (by decide)).2.2.2.1
    (10, 1) (by decide)

/-- C5: for an entry (k, v) of a registered ASTNodeWeakMap, if k or v is
reclaimed by a collection cycle (on the heap but unreachable when an
unlocked `trigger()` runs), then `find(k)` on that map returns not-found
immediately after the cycle and at every later point across operations
that do not re-insert key k into that map; a query never observes an entry
whose key or value was reclaimed. -/
theorem weakmap_purge (s : GCState) (i k v : Nat) (q : Nat × List (Nat × Nat))
    (hlock : s.lockCount = 0)
    (hfind : s.weakMaps.find? (fun r => r.1 == i) = some q)
    (hnd : (q.2.map Prod.fst).Nodup)
    (hmem : (k, v) ∈ q.2)
    (hrecl : (k ∈ s.heapDom ∧ ¬ s.ReachableSpec k) ∨
      (v ∈ s.heapDom ∧ ¬ s.ReachableSpec v))
    (ops : List GCOp) (hops : ∀ op ∈ ops, ∀ v2, op ≠ GCOp.mapInsert i k v2) :
    (GC.trigger s).mapFind i k = none ∧
    ((GC.trigger s).applyOps ops).mapFind i k = none := by
  have hdead : s.survivesB k = false ∨ s.survivesB v = false := by
    rcases hrecl with ⟨_, hu⟩ | ⟨_, hu⟩
    · exact Or.inl (s.survivesB_false_of_unreachable hu)
    · exact Or.inr (s.survivesB_false_of_unreachable hu)
  have h1 : (GC.trigger s).mapFind i k = none := by
    unfold GC.trigger
    rw [if_pos hlock]
    exact GC.collect_mapFind_none s i k v q hfind hnd hmem hdead
  exact ⟨h1, mapFind_none_applyOps ops (GC.trigger s) hops h1⟩

theorem weakmap_purge_witness :
    (GC.trigger exState).mapFind 5 3 = none ∧
    ((GC.trigger exState).applyOps [GCOp.trigger]).mapFind 5 3 = none :=
  weakmap_purge exState 5 3 2 (5, [(3, 2)]) rfl (by decide) (by decide) (by decide)
    (Or.inl ⟨by decide, fun hr => absurd (exState.marked_complete hr) (by decide)⟩)
    [GCOp.trigger]
    (by
      intro op hop
      rcases List.mem_cons.mp hop with rfl | hop2
      · intro v2 h
        exact GCOp.noConfusion h
      · exact absurd hop2 (List.not_mem_nil _))

/-- C6: while the reentrant lock count is non-zero (reached from an unlocked
state by a sequence of lock/unlock calls containing strictly more locks
than unlocks), `GC::trigger()` is a no-op leaving the whole collector state
unchanged; when the lock count is zero, `trigger()` runs one full
mark-sweep cycle. -/
theorem lock_suppresses_trigger (s : GCState) (hlock : s.lockCount = 0)
    (ops : List GCOp)
    (hops : ∀ op ∈ ops, op = GCOp.lock ∨ op = GCOp.unlock)
    (hlt : countUnlocks ops < countLocks ops) :
    (s.applyOps ops).lockCount ≠ 0 ∧
    GC.trigger (s.applyOps ops) = s.applyOps ops ∧
    GC.trigger s = GC.collect s := by
  have hge := applyOps_lockCount ops s hops
  have hne : (s.applyOps ops).lockCount ≠ 0 := by omega
  refine ⟨hne, ?_, ?_⟩
  · unfold GC.trigger
    rw [if_neg hne]
  · unfold GC.trigger
    rw [if_pos hlock]

theorem lock_suppresses_trigger_witness :
    (exState.applyOps [GCOp.lock, GCOp.lock, GCOp.unlock]).lockCount ≠ 0 ∧
    GC.trigger (exState.applyOps [GCOp.lock, GCOp.lock, GCOp.unlock]) =
      exState.applyOps [GCOp.lock, GCOp.lock, GCOp.unlock] ∧
    GC.trigger exState = GC.collect exState :=
  lock_suppresses_trigger exState rfl [GCOp.lock, GCOp.lock, GCOp.unlock]
    (by decide) (by decide)

/-- C7: the collector's allocation entry point (`GC::alloc`, used by
`ASTNode::operator new`) returns storage of the requested size in which
every byte is zero-initialized. -/
theorem alloc_block_zeroed (size : Nat) :
    (GC.allocBlock size).length = size ∧ ∀ b ∈ GC.allocBlock size, b = 0 :=
  ⟨List.length_replicate size 0, fun _ hb => List.eq_of_mem_replicate hb⟩

/-- C8: the value returned by `GC::maxMem()` is monotonically non-decreasing
across every sequence of collector operations (in particular allocations
and triggered collections). -/
theorem maxMem_monotone (s : GCState) (ops : List GCOp) :
    GC.maxMem s ≤ GC.maxMem (s.applyOps ops) :=
  applyOps_maxMem_mono ops s

/-- C9: the generic ManagedASTStringMap mark callback marks every key
currently in the map, and the Expression*/VarDeclI* specializations
additionally mark every stored value; consequently, once such a map's marks
are part of the root set, a stored value on the heap survives an unlocked
`trigger()` without being referenced from anywhere else. -/
theorem managed_map_marking {T : Type} (m : List (Nat × T)) (mE : List (Nat × Nat))
    (s : GCState) (k v : Nat)
    (hsub : ∀ x ∈ ManagedASTStringMap.markNodesWithValues mE, x ∈ s.rootRefs)
    (hkv : (k, v) ∈ mE)
    (hv : v ∈ s.heapDom)
    (hlock : s.lockCount = 0) :
    (∀ p ∈ m, p.1 ∈ ManagedASTStringMap.markNodes m) ∧
    (∀ p ∈ mE, p.1 ∈ ManagedASTStringMap.markNodesWithValues mE ∧
      p.2 ∈ ManagedASTStringMap.markNodesWithValues mE) ∧
    v ∈ (GC.trigger s).heapDom := by
  refine ⟨?_, ?_, ?_⟩
  · intro p hp
    exact List.mem_map.mpr ⟨p, hp, rfl⟩
  · intro p hp
    unfold ManagedASTStringMap.markNodesWithValues
    exact ⟨List.mem_append_left _ (List.mem_map.mpr ⟨p, hp, rfl⟩),
      List.mem_append_right _ (List.mem_map.mpr ⟨p, hp, rfl⟩)⟩
  · have hvroot : v ∈ s.rootRefs := by
      refine hsub v ?_
      unfold ManagedASTStringMap.markNodesWithValues
      exact List.mem_append_right _ (List.mem_map.mpr ⟨(k, v), hkv, rfl⟩)
    have hvseed : v ∈ s.seeds := by
      unfold GCState.seeds
      exact List.mem_append_left _ hvroot
    have hvmark : v ∈ s.markedF := s.seeds_subset_markedF v hvseed
    unfold GC.trigger
    rw [if_pos hlock, GCState.heapDom_collect]
    exact ⟨hv, hvmark⟩

theorem managed_map_marking_witness :
    (∀ p ∈ [((1 : Nat), true)], p.1 ∈ ManagedASTStringMap.markNodes [((1 : Nat), true)]) ∧
    (∀ p ∈ [((2 : Nat), (3 : Nat))],
      p.1 ∈ ManagedASTStringMap.markNodesWithValues [((2 : Nat), (3 : Nat))] ∧
      p.2 ∈ ManagedASTStringMap.markNodesWithValues [((2 : Nat), (3 : Nat))]) ∧
    3 ∈ (GC.trigger exState2).heapDom :=
  managed_map_marking [((1 : Nat), true)] [((2 : Nat), (3 : Nat))] exState2 2 3
    (by decide) (by decide) (by decide) rfl

/-- C10: the ASTNode constructor produces a node whose GC mark bit is 0 and
whose stored id equals the requested id modulo 2^7 (the 7-bit field
truncates larger ids); it assigns no value to the secondary id field or to
the two flag bits. -/
theorem astnode_init_fields (id : Nat) :
    (ASTNode.init id)._gc_mark = 0 ∧ (ASTNode.init id)._id = id % 2 ^ 7 ∧
    (ASTNode.init id)._sec_id = none ∧ (ASTNode.init id)._flag_1 = none ∧
    (ASTNode.init id)._flag_2 = none :=
  ⟨rfl, rfl, rfl, rfl, rfl⟩

end MiniZinc
